import Mathlib

/-!
# Verification of the U1c crossbar switch-matrix transition engine

Shallow embedding of `src/spirack/U1c_module.py` (class `U1c_module`):
the transition planner (`get_transitional_rows`,
`get_interim_states_from_interim_rows`, `calc_transition_states`), the
hardware-mapping adapter (`adapt_settings_to_hardware_mapping`), the byte
serializer (`convert_settings_to_bytearray`), and the apply/bring-up
protocol (`pass_state_to_HW_module`, `update_state`, `disconnect_all`,
`enable_SR_output`).

Modelling conventions:
* A grid cell is one of the string literals `'0'` / `'1'` in the source;
  the planner only ever compares cells for equality and the serializer
  maps `'0'`/`'1'` to the bits 0/1, so cells are modelled as `Bool`.
* A row is a `List Bool` and a grid a `List (List Bool)`; the fully
  populated grids of the spec are the 8 × 8 ones (`wfGrid`).
* Python lists mutated in place (`append`, `l[i] = v`, `del l[0]`) are
  modelled by value passing: each function returns the grown list that
  the Python code mutates and (for `get_transitional_rows` /
  `get_interim_states_from_interim_rows`) also returns to its caller.
  `deepcopy` is the identity on values.
* The SPI bus transport `spi_rack.write_data(module, address, mode,
  speed, data)` and `time.sleep(delay)` are externally visible effects;
  they are recorded in an event trace (`Ev`).  The SPI mode/speed
  constants and the module id are irrelevant to every claim and are not
  recorded.  A transport failure ("write_data raises") is injected by
  the oracle `failIdx`: the n-th `write_data` call of the engine raises.
* `switch_delay` is a Python float (default `0.1` s); it is only stored
  and passed to `sleep`, never computed with, so it is modelled as `ℚ`.
-/

/-- A row of 8 connection flags (cells `'0'`/`'1'` modelled as `Bool`). -/
abbrev SwRow := List Bool

/-- An 8 × 8 grid of connection flags, indexed `[sample][instrument]`. -/
abbrev SwGrid := List (List Bool)

/-- A fully populated grid in the sense of the spec: 8 rows of 8 cells. -/
def wfGrid (g : SwGrid) : Prop := g.length = 8 ∧ ∀ r ∈ g, r.length = 8

instance : DecidablePred wfGrid := fun g => by
  unfold wfGrid; infer_instance

/-- Index of the first position where `desired` and `current` disagree:
the `lit_index` at which the scan
`for lit_index, literal in enumerate(row_desired): if literal != row_current[lit_index]`
inside `get_transitional_rows` (U1c_module.py:372-374) first fires.
If `current` is shorter than `desired`, Python raises `IndexError` at the
first out-of-range access; this embedding stops the scan there (the
situation is unreachable for the fully populated rows of every claim). -/
def firstDiff : SwRow → SwRow → Option Nat
  | [], _ => none
  | _ :: _, [] => none
  | d :: ds, c :: cs => if d = c then (firstDiff ds cs).map (· + 1) else some 0

/-- Fuelled core of `get_transitional_rows` (U1c_module.py:359-381).

```
if row_desired == row_current: return transitional_rows
else:
    for lit_index, literal in enumerate(row_desired):
        if literal != row_current[lit_index]:
            transitional_rows.append(deepcopy(transitional_rows[-1]))
            transitional_rows[-1][lit_index] = row_desired[lit_index]
            return self.get_transitional_rows(row_desired, transitional_rows[-1], transitional_rows)
```

Each recursive call rescans from index 0, so the recursion depth is not
structurally bounded for arbitrary arguments; `fuel` bounds it, and
`get_transitional_rows` below supplies fuel proven sufficient for every
equal-length call (`get_transitional_rows_spec`).  When the scan finds no
differing literal although `row_desired ≠ row_current` (only possible
with rows of unequal length) the Python function returns `None`; this
embedding returns the accumulator unchanged, a case unreachable for the
8-cell rows of every claim. -/
def get_transitional_rows_go : Nat → SwRow → SwRow → List SwRow → List SwRow
  | 0, _, _, acc => acc
  | fuel + 1, row_desired, row_current, acc =>
    if row_desired = row_current then acc
    else
      match firstDiff row_desired row_current with
      | none => acc
      | some i =>
        let nr := (acc.getLastD []).set i (row_desired.getD i false)
        get_transitional_rows_go fuel row_desired nr (acc ++ [nr])

/-- `get_transitional_rows` (U1c_module.py:359-381): all interim versions
of one row from `row_current` to `row_desired`, appended to the
accumulator `transitional_rows`. -/
def get_transitional_rows (row_desired row_current : SwRow)
    (transitional_rows : List SwRow) : List SwRow :=
  get_transitional_rows_go (row_desired.length + 1) row_desired row_current
    transitional_rows

/-- `get_interim_states_from_interim_rows` (U1c_module.py:383-407):

```
for interim_index, interim_row in enumerate(interim_rows):
    interim_states.append(deepcopy(interim_states[-1]))
    interim_states[-1][row_num] = interim_row
return interim_states
```

(The `len(interim_rows) == 0` early return coincides with the fold over
the empty list.) -/
def get_interim_states_from_interim_rows (row_num : Nat)
    (interim_rows : List SwRow) (interim_states : List SwGrid) : List SwGrid :=
  interim_rows.foldl
    (fun states interim_row =>
      states ++ [(states.getLastD []).set row_num interim_row])
    interim_states

/-- One iteration of the `for row_index, row in enumerate(settings_desired)`
loop of `calc_transition_states` (U1c_module.py:441-450): the bound `row`
is unused in the source (the body indexes `settings_desired[row_index]`).
Calls `get_transitional_rows` seeded with
`[self.settings_current[row_index]]`, drops the seed
(`del transitional_rows[0]`), and feeds the remainder to
`get_interim_states_from_interim_rows`. -/
def calc_transition_states_row (settings_current settings_desired : SwGrid)
    (states : List SwGrid) (row_index : Nat) : List SwGrid :=
  get_interim_states_from_interim_rows row_index
    ((get_transitional_rows (settings_desired.getD row_index [])
        (settings_current.getD row_index [])
        [settings_current.getD row_index []]).drop 1)
    states

/-- `calc_transition_states` (U1c_module.py:437-453).  The Python method
grows the caller's `transitional_states` list in place and returns
`None`; this value-passing embedding returns the grown list. -/
def calc_transition_states (settings_current settings_desired : SwGrid)
    (transitional_states : List SwGrid) : List SwGrid :=
  (List.range settings_desired.length).foldl
    (calc_transition_states_row settings_current settings_desired)
    transitional_states

/-- The transition plan of `update_state` (U1c_module.py:476-485): the
interim states computed by `calc_transition_states` seeded with
`[deepcopy(self.settings_current)]`, with the seed removed afterwards
(`del transitional_states[0]`). -/
def transitionPlan (current desired : SwGrid) : List SwGrid :=
  (calc_transition_states current desired [current]).drop 1

/-- `adapt_settings_to_hardware_mapping` (U1c_module.py:345-356):

```
settings_updated = deepcopy(settings_initial)
settings_updated[0],settings_updated[1]=settings_initial[1],settings_initial[0][::-1]
settings_updated[2],settings_updated[3]=settings_initial[3],settings_initial[2][::-1]
settings_updated[4],settings_updated[5]=settings_initial[5],settings_initial[4][::-1]
settings_updated[6],settings_updated[7]=settings_initial[7],settings_initial[6][::-1]
```

All right-hand sides read the untouched `settings_initial`, so every
`getD` below reads the original argument. -/
def adapt_settings_to_hardware_mapping (settings_initial : SwGrid) : SwGrid :=
  ((((((((settings_initial.set 0 (settings_initial.getD 1 [])).set 1
      ((settings_initial.getD 0 []).reverse)).set 2
      (settings_initial.getD 3 [])).set 3
      ((settings_initial.getD 2 []).reverse)).set 4
      (settings_initial.getD 5 [])).set 5
      ((settings_initial.getD 4 []).reverse)).set 6
      (settings_initial.getD 7 [])).set 7
      ((settings_initial.getD 6 []).reverse))

/-- One byte of `convert_settings_to_bytearray` (U1c_module.py:421):
`sum(int(bit)<<bit_index for bit_index,bit in enumerate(reversed(row)))`. -/
def row_to_byte (row : SwRow) : Nat :=
  (row.reverse.enum.map (fun p => (if p.2 then 1 else 0) * 2 ^ p.1)).sum

/-- `convert_settings_to_bytearray` (U1c_module.py:409-424): one byte per
row of the grid (a `bytearray` modelled as `List Nat`). -/
def convert_settings_to_bytearray (next_settings : SwGrid) : List Nat :=
  next_settings.map row_to_byte

/-- `self.settings_default` (U1c_module.py:67-76): the all-open grid of
64 `'0'` cells. -/
def settings_default : SwGrid := List.replicate 8 (List.replicate 8 false)

/-! ## Specification-side descriptions of the planner

The following definitions are not translations of source functions; they
are the explicit shapes that the theorems below prove the source
functions to have.  `rowDiffIdxs` lists (in ascending order) the
positions where two rows disagree, `rowFixTrail` walks a row through a
given list of single-cell fixes, `gridDiffCells` lists the differing
cells of two grids in row-major ascending order, and `gridTrail` walks a
grid through a list of single-cell fixes. -/

/-- Ascending list of the positions (within the common length) where
rows `d` and `c` hold different cells. -/
def rowDiffIdxs : SwRow → SwRow → List Nat
  | d :: ds, c :: cs =>
    if d = c then (rowDiffIdxs ds cs).map (· + 1)
    else 0 :: (rowDiffIdxs ds cs).map (· + 1)
  | _, _ => []

/-- Successive versions of row `c` as the cells at the given positions
are set, one at a time, to the value `d` holds there. -/
def rowFixTrail (d : SwRow) : SwRow → List Nat → List SwRow
  | _, [] => []
  | c, i :: is =>
    let c' := c.set i (d.getD i false)
    c' :: rowFixTrail d c' is

/-- Structural description of the interim rows emitted between `c` and
`d`: one new row per differing cell, fixed left to right. -/
def rowTrailSpec : SwRow → SwRow → List SwRow
  | d :: ds, c :: cs =>
    if d = c then (rowTrailSpec ds cs).map (fun r => c :: r)
    else (d :: cs) :: (rowTrailSpec ds cs).map (fun r => d :: r)
  | _, _ => []

/-- The cell of `g` at row `r`, column `c` (`false` when out of range). -/
def cellOf (g : SwGrid) (r c : Nat) : Bool := (g.getD r []).getD c false

/-- All cells among the first `n` rows where grids `A` (current) and `B`
(desired) disagree, in row-major ascending order. -/
def gridDiffCellsUpTo (A B : SwGrid) (n : Nat) : List (Nat × Nat) :=
  ((List.range n).map
    (fun ri => (rowDiffIdxs (B.getD ri []) (A.getD ri [])).map
      (fun ci => (ri, ci)))).flatten

/-- All cells where grids `A` (current) and `B` (desired) disagree, in
row-major ascending order — the net difference `A XOR B`. -/
def gridDiffCells (A B : SwGrid) : List (Nat × Nat) :=
  gridDiffCellsUpTo A B B.length

/-- Successive versions of grid `g` as the cells at the given positions
are set, one at a time, to the value grid `B` holds there. -/
def gridTrail (B : SwGrid) : SwGrid → List (Nat × Nat) → List SwGrid
  | _, [] => []
  | g, rc :: rest =>
    let g' := g.set rc.1 ((g.getD rc.1 []).set rc.2 ((B.getD rc.1 []).getD rc.2 false))
    g' :: gridTrail B g' rest

/-- The hybrid grid after the first `n` rows have been driven from `A`
to `B`: rows `0..n-1` from `B`, rows `n..` from `A`. -/
def mixGrid (A B : SwGrid) (n : Nat) : SwGrid := B.take n ++ A.drop n

/-- Two grids differ in exactly one cell: some cell differs, and every
differing cell is that one. -/
def oneCellStep (g g' : SwGrid) : Prop :=
  ∃ r c, cellOf g r c ≠ cellOf g' r c ∧
    ∀ r' c', cellOf g r' c' ≠ cellOf g' r' c' → r' = r ∧ c' = c

/-- Cell count of the net difference between two 8 × 8 grids
(`popcount(A XOR B)` of the spec). -/
def diffCellCount (A B : SwGrid) : Nat :=
  ((List.range 8).map
    (fun r => ((List.range 8).filter
      (fun c => cellOf A r c != cellOf B r c)).length)).sum

/-- Strict row-major (lexicographic) order on cell positions. -/
def cellLt (a b : Nat × Nat) : Prop :=
  a.1 < b.1 ∨ (a.1 = b.1 ∧ a.2 < b.2)

/-! ## The apply engine and the bring-up protocol

The externally visible effects of `update_state` / `disconnect_all` are
the `spi_rack.write_data` calls and the `time.sleep` calls; they are
recorded in an event trace.  The external bus transport may raise on any
`write_data` call; the oracle `failIdx` injects a failure at the n-th
(0-based) shift-register write of a run, modelling a transport failure
mid-sequence.  The audio notifications (`winsound.Beep`) touch neither
the bus nor the module state and are not recorded. -/

/-- A bus-transport / timing event: `write address data` is
`spi_rack.write_data(module, address, mode, speed, data)` (the SPI mode,
speed and module id do not vary per claim and are not recorded);
`sleep t` is `time.sleep(t)`. -/
inductive Ev where
  | write (address : Nat) (data : List Nat)
  | sleep (duration : Rat)
deriving DecidableEq

/-- The mutable module state of a `U1c_module` object relevant to the
engine: `self.settings_current` (CurrentGrid) and `self.initialized`
(ValidityFlag, the Python ints 0/1). -/
structure U1cState where
  settings_current : SwGrid
  initialized : Nat
deriving DecidableEq

/-- Result of running an engine method: final module state, emitted
event trace, and whether the method returned normally (`ok = false`
means a transport failure propagated to the caller). -/
structure U1cRun where
  state : U1cState
  trace : List Ev
  ok : Bool
deriving DecidableEq

/-- Events of `pass_state_to_HW_module` (U1c_module.py:455-468): adapt
the grid, serialize it, write it to shift-register address 3, then sleep
for `switch_delay`. -/
def pass_state_evs (state : SwGrid) (switch_delay : Rat) : List Ev :=
  [Ev.write 3 (convert_settings_to_bytearray
      (adapt_settings_to_hardware_mapping state)),
   Ev.sleep switch_delay]

/-- The `for state in transitional_states: self.pass_state_to_HW_module(state)`
loop (U1c_module.py:493-494 and 607-608), with transport-failure
injection: the write numbered `failIdx` raises, the exception propagates
(no further events), and the sleep after a failed write never runs. -/
def applyStates (failIdx : Option Nat) (switch_delay : Rat) :
    Nat → List SwGrid → List Ev × Bool
  | _, [] => ([], true)
  | idx, state :: rest =>
    if failIdx = some idx then ([], false)
    else
      let r := applyStates failIdx switch_delay (idx + 1) rest
      (pass_state_evs state switch_delay ++ r.1, r.2)

/-- Data byte of `enable_SR_output` (U1c_module.py:94-107): `'enable'`
maps to 0, `'disable'` to 1, anything else raises `ValueError` (no
event); the byte written to address 5 is `data << 4`. -/
def enable_SR_output_evs (value : String) : List Ev :=
  if value = "enable" then [Ev.write 5 [0 <<< 4]]
  else if value = "disable" then [Ev.write 5 [1 <<< 4]]
  else []

/-- `update_state` (U1c_module.py:470-506).  The desired grid is the
output of `extract_settings_from_csv_input` on the lines read from the
configuration file (an external collaborator), passed here as the
parameter `settings_desired`; the re-extraction at line 503 runs on the
same `input_lines` with the same pure extraction and yields the same
value.  On success `settings_current` becomes the desired grid and
`initialized` is deliberately left unchanged (line 506 is commented out
in the source).  If a write raises, the exception propagates before the
assignment to `settings_current`, so the pre-call state is retained. -/
def update_state (failIdx : Option Nat) (switch_delay : Rat)
    (st : U1cState) (settings_desired : SwGrid) : U1cRun :=
  let r := applyStates failIdx switch_delay 0
    (transitionPlan st.settings_current settings_desired)
  if r.2 then
    { state := { settings_current := settings_desired,
                 initialized := st.initialized },
      trace := r.1, ok := true }
  else
    { state := st, trace := r.1, ok := false }

/-- `disconnect_all` (U1c_module.py:568-620).  When `initialized != 1`
the stale `settings_current` is first overwritten with
`settings_default`; the seed state is deleted only when
`initialized == 1` and the seed equals `settings_current`, so in the
uninitialized case the all-open grid itself is written to hardware.  On
normal completion `settings_current := settings_default`,
`initialized := 1`, and the output is enabled. -/
def disconnect_all (failIdx : Option Nat) (switch_delay : Rat)
    (st : U1cState) : U1cRun :=
  let cur := if st.initialized ≠ 1 then settings_default
    else st.settings_current
  let ts1 := calc_transition_states cur settings_default [cur]
  let ts2 := if st.initialized = 1 ∧ ts1.headD [] = cur then ts1.drop 1
    else ts1
  let r := applyStates failIdx switch_delay 0 ts2
  if r.2 then
    { state := { settings_current := settings_default, initialized := 1 },
      trace := r.1 ++ enable_SR_output_evs "enable", ok := true }
  else
    { state := { settings_current := cur, initialized := st.initialized },
      trace := r.1, ok := false }


/-! ## Concrete grids used to instantiate the theorems -/

/-- A desired grid differing from the all-open grid in the two cells
(0,0) and (0,1): its plan from `settings_default` has two steps. -/
def demoGridB : SwGrid :=
  [[true, true, false, false, false, false, false, false]] ++
    List.replicate 7 (List.replicate 8 false)

/-- A grid whose first two rows are not palindromes, separating a row
from its bit-reversal under the hardware mapping. -/
def demoGridC : SwGrid :=
  [[true, false, false, false, false, false, false, false],
   [true, true, false, false, false, false, false, false]] ++
    List.replicate 6 (List.replicate 8 false)

/-- A stale all-closed grid, used as a bogus `settings_current` for
bring-up scenarios. -/
def demoStale : SwGrid := List.replicate 8 (List.replicate 8 true)

/-- A freshly constructed module state: all-open current grid, validity
flag cleared. -/
def demoState0 : U1cState :=
  { settings_current := settings_default, initialized := 0 }

/-- A module state after a software restart without hardware reset: the
validity flag is cleared but the stale grid claims every relay closed. -/
def demoStaleState : U1cState :=
  { settings_current := demoStale, initialized := 0 }

/-! ## Row-level lemmas -/

theorem rowDiffIdxs_self (d : SwRow) : rowDiffIdxs d d = [] := by
  induction d with
  | nil => rfl
  | cons a t ih => simp [rowDiffIdxs, ih]

theorem rowDiffIdxs_eq_nil_iff : ∀ {d c : SwRow}, d.length = c.length →
    (rowDiffIdxs d c = [] ↔ d = c)
  | [], [], _ => by simp [rowDiffIdxs]
  | [], _ :: _, h => by simp at h
  | _ :: _, [], h => by simp at h
  | a :: t, b :: s, h => by
    by_cases hab : a = b
    · subst hab
      have ih := rowDiffIdxs_eq_nil_iff (d := t) (c := s) (by simpa using h)
      simp [rowDiffIdxs, ih]
    · simp [rowDiffIdxs, hab]

theorem firstDiff_eq_head : ∀ (d c : SwRow), firstDiff d c = (rowDiffIdxs d c).head?
  | [], _ => by cases ‹SwRow› <;> rfl
  | _ :: _, [] => rfl
  | a :: t, b :: s => by
    by_cases hab : a = b
    · simp [firstDiff, rowDiffIdxs, hab, firstDiff_eq_head t s]
    · simp [firstDiff, rowDiffIdxs, hab]

theorem rowDiffIdxs_mem : ∀ {d c : SwRow} {i : Nat}, i ∈ rowDiffIdxs d c →
    i < d.length ∧ i < c.length ∧ d.getD i false ≠ c.getD i false
  | [], _, _, h => by simp [rowDiffIdxs] at h
  | _ :: _, [], _, h => by simp [rowDiffIdxs] at h
  | a :: t, b :: s, i, h => by
    by_cases hab : a = b
    · simp only [rowDiffIdxs, if_pos hab, List.mem_map] at h
      obtain ⟨j, hj, rfl⟩ := h
      obtain ⟨h1, h2, h3⟩ := rowDiffIdxs_mem hj
      exact ⟨by simp; omega, by simp; omega,
        by simp only [List.getD_cons_succ]; exact h3⟩
    · simp only [rowDiffIdxs, if_neg hab, List.mem_cons, List.mem_map] at h
      rcases h with rfl | ⟨j, hj, rfl⟩
      · exact ⟨by simp, by simp, by simp only [List.getD_cons_zero]; exact hab⟩
      · obtain ⟨h1, h2, h3⟩ := rowDiffIdxs_mem hj
        exact ⟨by simp; omega, by simp; omega,
          by simp only [List.getD_cons_succ]; exact h3⟩

theorem rowDiffIdxs_sorted : ∀ (d c : SwRow), (rowDiffIdxs d c).Pairwise (· < ·)
  | [], _ => by cases ‹SwRow› <;> simp [rowDiffIdxs]
  | _ :: _, [] => by simp [rowDiffIdxs]
  | a :: t, b :: s => by
    have ih := rowDiffIdxs_sorted t s
    by_cases hab : a = b
    · simpa [rowDiffIdxs, hab, List.pairwise_map] using ih
    · simp only [rowDiffIdxs, if_neg hab, List.pairwise_cons, List.pairwise_map]
      refine ⟨fun x hx => ?_, by simpa [List.pairwise_map] using ih⟩
      simp only [List.mem_map] at hx
      obtain ⟨j, _, rfl⟩ := hx
      omega

theorem rowDiffIdxs_length_le : ∀ (d c : SwRow), (rowDiffIdxs d c).length ≤ d.length
  | [], _ => by cases ‹SwRow› <;> simp [rowDiffIdxs]
  | _ :: _, [] => by simp [rowDiffIdxs]
  | a :: t, b :: s => by
    have ih := rowDiffIdxs_length_le t s
    by_cases hab : a = b <;> simp [rowDiffIdxs, hab] <;> omega

/-- Fixing the first differing cell removes exactly the head of the
difference-index list. -/
theorem rowDiffIdxs_set : ∀ {d c : SwRow} {i : Nat} {rest : List Nat},
    rowDiffIdxs d c = i :: rest →
    rowDiffIdxs d (c.set i (d.getD i false)) = rest
  | [], c, i, rest, h => by cases c <;> simp [rowDiffIdxs] at h
  | _ :: _, [], i, rest, h => by simp [rowDiffIdxs] at h
  | a :: t, b :: s, i, rest, h => by
    by_cases hab : a = b
    · simp only [rowDiffIdxs, if_pos hab] at h
      cases h' : rowDiffIdxs t s with
      | nil => rw [h'] at h; simp at h
      | cons j rest' =>
        rw [h'] at h
        simp only [List.map_cons, List.cons.injEq] at h
        obtain ⟨rfl, rfl⟩ := h
        have ih := rowDiffIdxs_set h'
        simp only [List.set_cons_succ, List.getD_cons_succ, rowDiffIdxs,
          if_pos hab, ih]
    · simp only [rowDiffIdxs, if_neg hab, List.cons.injEq] at h
      obtain ⟨rfl, rfl⟩ := h
      simp [rowDiffIdxs]

theorem rowFixTrail_shift : ∀ (is : List Nat) (d₀ b : Bool) (ds cs : SwRow),
    rowFixTrail (d₀ :: ds) (b :: cs) (is.map (· + 1)) =
      (rowFixTrail ds cs is).map (b :: ·)
  | [], _, _, _, _ => rfl
  | i :: is, d₀, b, ds, cs => by
    simp only [List.map_cons, rowFixTrail, List.set_cons_succ, List.getD_cons_succ]
    exact congrArg _ (rowFixTrail_shift is d₀ b ds (cs.set i (ds.getD i false)))

theorem rowTrailSpec_eq_fix : ∀ (d c : SwRow),
    rowTrailSpec d c = rowFixTrail d c (rowDiffIdxs d c)
  | [], c => by cases c <;> rfl
  | _ :: _, [] => rfl
  | a :: t, b :: s => by
    have ih := rowTrailSpec_eq_fix t s
    by_cases hab : a = b
    · subst hab
      simp [rowTrailSpec, rowDiffIdxs, rowFixTrail_shift, ih]
    · simp only [rowTrailSpec, if_neg hab, rowDiffIdxs, if_neg hab, rowFixTrail,
        List.set_cons_zero, List.getD_cons_zero, rowFixTrail_shift, ih]

theorem rowTrailSpec_getLastD : ∀ {d c : SwRow}, d.length = c.length →
    (rowTrailSpec d c).getLastD c = d
  | [], [], _ => rfl
  | [], _ :: _, h => by simp at h
  | _ :: _, [], h => by simp at h
  | a :: t, b :: s, h => by
    have ih := rowTrailSpec_getLastD (d := t) (c := s) (by simpa using h)
    by_cases hab : a = b
    · subst hab
      simp only [rowTrailSpec, if_pos rfl]
      cases h' : rowTrailSpec t s with
      | nil =>
        rw [h'] at ih
        simp only [List.getLastD_nil] at ih
        simp [ih]
      | cons z zs =>
        rw [h'] at ih
        show ((z :: zs).map (fun r => a :: r)).getLastD (a :: s) = a :: t
        rw [List.getLastD_eq_getLast?, List.getLast?_map]
        rw [List.getLastD_eq_getLast?] at ih
        cases h'' : (z :: zs).getLast? with
        | none => simp at h''
        | some w => rw [h''] at ih; simp at ih; simp [h'', ih]
    · simp only [rowTrailSpec, if_neg hab, List.getLastD_cons]
      cases h' : rowTrailSpec t s with
      | nil =>
        rw [h'] at ih
        simp only [List.getLastD_nil] at ih
        simp [ih]
      | cons z zs =>
        rw [h'] at ih
        show ((z :: zs).map (fun r => a :: r)).getLastD (a :: s) = a :: t
        rw [List.getLastD_eq_getLast?, List.getLast?_map]
        rw [List.getLastD_eq_getLast?] at ih
        cases h'' : (z :: zs).getLast? with
        | none => simp at h''
        | some w => rw [h''] at ih; simp at ih; simp [h'', ih]

/-- The fuelled body of `get_transitional_rows` appends exactly the
structurally described interim rows, whenever the accumulator ends with
the current row, the rows have equal length, and the fuel dominates the
number of differing cells. -/
theorem get_transitional_rows_go_spec : ∀ (fuel : Nat) (d c : SwRow)
    (acc : List SwRow), d.length = c.length →
    (rowDiffIdxs d c).length + 1 ≤ fuel → acc.getLast? = some c →
    get_transitional_rows_go fuel d c acc = acc ++ rowTrailSpec d c
  | 0, d, c, acc, _, hfuel, _ => by omega
  | fuel + 1, d, c, acc, hlen, hfuel, hacc => by
    by_cases hdc : d = c
    · subst hdc
      simp [get_transitional_rows_go, rowTrailSpec_eq_fix, rowDiffIdxs_self,
        rowFixTrail]
    · cases hidx : rowDiffIdxs d c with
      | nil => exact absurd ((rowDiffIdxs_eq_nil_iff hlen).1 hidx) hdc
      | cons i rest =>
        have hfd : firstDiff d c = some i := by
          rw [firstDiff_eq_head, hidx]; rfl
        have hlast : acc.getLastD [] = c := by
          simp [List.getLastD_eq_getLast?, hacc]
        have hstep :
            get_transitional_rows_go (fuel + 1) d c acc =
              get_transitional_rows_go fuel d (c.set i (d.getD i false))
                (acc ++ [c.set i (d.getD i false)]) := by
          simp only [get_transitional_rows_go, if_neg hdc, hfd, hlast]
        rw [hstep]
        have hrest := rowDiffIdxs_set hidx
        have ih := get_transitional_rows_go_spec fuel d
          (c.set i (d.getD i false)) (acc ++ [c.set i (d.getD i false)])
          (by simpa using hlen)
          (by rw [hrest]; have := hfuel; rw [hidx] at this; simp at this; omega)
          (List.getLast?_concat _)
        rw [ih, List.append_assoc]
        congr 1
        rw [rowTrailSpec_eq_fix d (c.set i (d.getD i false)), hrest,
          rowTrailSpec_eq_fix d c, hidx, rowFixTrail]
        rfl

/-- `get_transitional_rows(desired, current, [current])` — the exact call
shape used by `calc_transition_states` — returns the seed row followed by
the interim rows, for equal-length rows. -/
theorem get_transitional_rows_eq {d c : SwRow} (hlen : d.length = c.length) :
    get_transitional_rows d c [c] = c :: rowTrailSpec d c := by
  have h := get_transitional_rows_go_spec (d.length + 1) d c [c] hlen
    (by have := rowDiffIdxs_length_le d c; omega) (by simp)
  simpa [get_transitional_rows] using h

/-! ## Generic list helpers -/

theorem getLastD_append_eq (s t : List α) (x : α) :
    (s ++ t).getLastD x = t.getLastD (s.getLastD x) := by
  cases h : t.getLast? with
  | none =>
    rw [List.getLast?_eq_none_iff] at h
    subst h
    simp
  | some z =>
    simp [List.getLastD_eq_getLast?, List.getLast?_append, h]

theorem set_getD_self : ∀ (l : List α) (i : Nat) (x : α), i < l.length →
    l.set i (l.getD i x) = l
  | [], i, x, h => by simp at h
  | a :: t, 0, x, _ => rfl
  | a :: t, i + 1, x, h => by
    simp only [List.getD_cons_succ, List.set_cons_succ]
    rw [set_getD_self t i x (by simpa using h)]

theorem getD_set_self {l : List α} {i : Nat} {a x : α} (h : i < l.length) :
    (l.set i a).getD i x = a := by
  simp [List.getD_eq_getElem?_getD, List.getElem?_set_self h]

theorem getD_set_ne {l : List α} {i j : Nat} {a x : α} (h : i ≠ j) :
    (l.set i a).getD j x = l.getD j x := by
  simp [List.getD_eq_getElem?_getD, List.getElem?_set_ne h]

/-! ## Grid-assembly lemmas -/

/-- `get_interim_states_from_interim_rows` appends, for each interim row,
the last accumulated grid with that row replaced. -/
theorem get_interim_states_eq : ∀ (interim_rows : List SwRow) (row_num : Nat)
    (states : List SwGrid),
    get_interim_states_from_interim_rows row_num interim_rows states =
      states ++ interim_rows.map
        (fun r => (states.getLastD []).set row_num r)
  | [], _, states => by simp [get_interim_states_from_interim_rows]
  | r :: rows, row_num, states => by
    have ih := get_interim_states_eq rows row_num
      (states ++ [(states.getLastD []).set row_num r])
    show get_interim_states_from_interim_rows row_num rows
        (states ++ [(states.getLastD []).set row_num r]) = _
    rw [ih]
    have hlast : (states ++ [(states.getLastD []).set row_num r]).getLastD []
        = (states.getLastD []).set row_num r := by
      simp [List.getLastD_eq_getLast?, List.getLast?_append]
    rw [hlast]
    simp [List.set_set]

theorem mixGrid_zero (A B : SwGrid) : mixGrid A B 0 = A := by simp [mixGrid]

theorem mixGrid_length {A B : SwGrid} (hAB : A.length = B.length) {n : Nat}
    (hn : n ≤ A.length) : (mixGrid A B n).length = A.length := by
  simp [mixGrid]
  omega

theorem mixGrid_all {A B : SwGrid} (hAB : A.length = B.length) :
    mixGrid A B A.length = B := by
  simp [mixGrid, hAB]

theorem mixGrid_getD_right {A B : SwGrid} {n : Nat} (hn : n ≤ B.length) :
    (mixGrid A B n).getD n [] = A.getD n [] := by
  have hlen : (B.take n).length = n := by simp; omega
  simp only [mixGrid, List.getD_eq_getElem?_getD]
  rw [List.getElem?_append_right (by omega)]
  rw [hlen]
  cases hA : Nat.decLt n A.length with
  | isTrue h =>
    rw [List.getElem?_drop]
    simp
  | isFalse h =>
    rw [List.getElem?_drop]
    simp

theorem mixGrid_succ {A B : SwGrid} (hAB : A.length = B.length) {n : Nat}
    (hn : n < A.length) :
    mixGrid A B (n + 1) = (mixGrid A B n).set n (B.getD n []) := by
  have hlen : (B.take n).length = n := by simp; omega
  have hBn : n < B.length := by omega
  have h1 : B.take (n + 1) = B.take n ++ [B[n]] := by
    rw [List.take_succ, List.getElem?_eq_getElem hBn]
    rfl
  have h2 : A.drop n = A[n] :: A.drop (n + 1) := List.drop_eq_getElem_cons hn
  have h3 : B.getD n [] = B[n] := by
    simp [List.getD_eq_getElem?_getD, List.getElem?_eq_getElem hBn]
  rw [mixGrid, mixGrid, List.set_append_right _ _ (le_of_eq hlen), hlen,
    Nat.sub_self, h1, h2, h3, List.set_cons_zero, List.append_assoc,
    List.singleton_append]

theorem gridTrail_append (B : SwGrid) : ∀ (l₁ l₂ : List (Nat × Nat)) (g : SwGrid),
    gridTrail B g (l₁ ++ l₂) =
      gridTrail B g l₁ ++ gridTrail B ((gridTrail B g l₁).getLastD g) l₂
  | [], l₂, g => by simp [gridTrail]
  | rc :: l₁, l₂, g => by
    simp only [List.cons_append, gridTrail, List.append_eq]
    rw [gridTrail_append B l₁ l₂, List.getLastD_cons]

theorem gridTrail_single_row (B : SwGrid) : ∀ (is : List Nat) (g : SwGrid)
    (ri : Nat), ri < g.length →
    gridTrail B g (is.map (fun ci => (ri, ci))) =
      (rowFixTrail (B.getD ri []) (g.getD ri []) is).map (fun r => g.set ri r)
  | [], _, _, _ => rfl
  | i :: is, g, ri, hri => by
    simp only [List.map_cons, gridTrail, rowFixTrail]
    have ih := gridTrail_single_row B is
      (g.set ri ((g.getD ri []).set i ((B.getD ri []).getD i false))) ri
      (by simpa using hri)
    rw [ih]
    rw [getD_set_self hri]
    simp [List.set_set]

theorem gridTrail_length (B : SwGrid) : ∀ (cells : List (Nat × Nat)) (g : SwGrid),
    (gridTrail B g cells).length = cells.length
  | [], _ => rfl
  | rc :: rest, g => by
    simp only [gridTrail, List.length_cons]
    rw [gridTrail_length B rest]

theorem gridTrail_mem_length (B : SwGrid) : ∀ (cells : List (Nat × Nat))
    (g g' : SwGrid), g' ∈ gridTrail B g cells → g'.length = g.length
  | [], _, _, h => by simp [gridTrail] at h
  | rc :: rest, g, g', h => by
    simp only [gridTrail, List.mem_cons] at h
    rcases h with rfl | h
    · simp
    · have := gridTrail_mem_length B rest _ _ h
      simpa using this

theorem getD_eq_getElem_of_lt {l : List α} {i : Nat} {x : α} (h : i < l.length) :
    l.getD i x = l[i] := by
  rw [List.getD_eq_getElem?_getD, List.getElem?_eq_getElem h]
  rfl

theorem getD_mem {l : List α} {i : Nat} {x : α} (h : i < l.length) :
    l.getD i x ∈ l := by
  rw [getD_eq_getElem_of_lt h]
  exact List.getElem_mem h

theorem rowFixTrail_eq_nil_iff {d c : SwRow} {is : List Nat} :
    rowFixTrail d c is = [] ↔ is = [] := by
  cases is <;> simp [rowFixTrail]

/-! ## The planner invariant

Processing the first `n` rows of the desired grid turns the seeded state
list `[A]` into `[A]` followed by the single-cell trail through the
differing cells of those rows, and leaves the hybrid grid
`mixGrid A B n` as the last accumulated state. -/

theorem calc_fold_inv {A B : SwGrid} (hA : wfGrid A) (hB : wfGrid B) :
    ∀ n, n ≤ 8 →
      (List.range n).foldl (calc_transition_states_row A B) [A] =
        [A] ++ gridTrail B A (gridDiffCellsUpTo A B n) ∧
      ((List.range n).foldl (calc_transition_states_row A B) [A]).getLastD []
        = mixGrid A B n := by
  intro n
  induction n with
  | zero =>
    intro _
    constructor
    · simp [gridDiffCellsUpTo, gridTrail]
    · simp [mixGrid_zero]
  | succ n ih =>
    intro hn
    obtain ⟨hS, hlastS⟩ := ih (by omega)
    have hA8 : A.length = 8 := hA.1
    have hB8 : B.length = 8 := hB.1
    have hAB : A.length = B.length := by omega
    have hnA : n < A.length := by omega
    have hArow : (A.getD n []).length = 8 := hA.2 _ (getD_mem (by omega))
    have hBrow : (B.getD n []).length = 8 := hB.2 _ (getD_mem (by omega))
    have hrow : (B.getD n []).length = (A.getD n []).length := by omega
    have hmixlen : (mixGrid A B n).length = A.length :=
      mixGrid_length hAB (by omega)
    have hnmix : n < (mixGrid A B n).length := by omega
    have hmixrow : (mixGrid A B n).getD n [] = A.getD n [] :=
      mixGrid_getD_right (by omega)
    have hfold : (List.range (n + 1)).foldl (calc_transition_states_row A B) [A]
        = calc_transition_states_row A B
            ((List.range n).foldl (calc_transition_states_row A B) [A]) n := by
      rw [List.range_succ, List.foldl_append]
      rfl
    have htrows : (get_transitional_rows (B.getD n []) (A.getD n [])
        [A.getD n []]).drop 1 = rowTrailSpec (B.getD n []) (A.getD n []) := by
      rw [get_transitional_rows_eq hrow]
      rfl
    have hstep : calc_transition_states_row A B
        ((List.range n).foldl (calc_transition_states_row A B) [A]) n
        = ((List.range n).foldl (calc_transition_states_row A B) [A]) ++
            gridTrail B (mixGrid A B n)
              ((rowDiffIdxs (B.getD n []) (A.getD n [])).map
                (fun ci => (n, ci))) := by
      rw [calc_transition_states_row, htrows, get_interim_states_eq, hlastS,
        gridTrail_single_row B _ _ _ hnmix, hmixrow, rowTrailSpec_eq_fix]
    have hcells : gridDiffCellsUpTo A B (n + 1) = gridDiffCellsUpTo A B n ++
        (rowDiffIdxs (B.getD n []) (A.getD n [])).map (fun ci => (n, ci)) := by
      simp [gridDiffCellsUpTo, List.range_succ]
    have hT : (gridTrail B A (gridDiffCellsUpTo A B n)).getLastD A
        = mixGrid A B n := by
      have hlastS' := hlastS
      rw [hS, List.singleton_append, List.getLastD_cons] at hlastS'
      exact hlastS'
    have htraillast : List.getLastD
        (gridTrail B (mixGrid A B n)
          ((rowDiffIdxs (B.getD n []) (A.getD n [])).map (fun ci => (n, ci))))
        (mixGrid A B n) = mixGrid A B (n + 1) := by
      rw [gridTrail_single_row B _ _ _ hnmix, hmixrow, ← rowTrailSpec_eq_fix]
      cases hL : rowTrailSpec (B.getD n []) (A.getD n []) with
      | nil =>
        have hidxnil : rowDiffIdxs (B.getD n []) (A.getD n []) = [] := by
          have := hL
          rw [rowTrailSpec_eq_fix] at this
          exact rowFixTrail_eq_nil_iff.1 this
        have hrows_eq : B.getD n [] = A.getD n [] :=
          (rowDiffIdxs_eq_nil_iff hrow).1 hidxnil
        rw [mixGrid_succ hAB hnA, hrows_eq, ← hmixrow,
          set_getD_self _ _ _ hnmix]
        rfl
      | cons z zs =>
        have hLlast : (rowTrailSpec (B.getD n []) (A.getD n [])).getLast?
            = some (B.getD n []) := by
          have h1 := rowTrailSpec_getLastD hrow
          rw [hL] at h1 ⊢
          rw [List.getLastD_eq_getLast?] at h1
          cases h2 : (z :: zs).getLast? with
          | none => simp at h2
          | some w => rw [h2] at h1; simp at h1; simp [h1]
        rw [hL] at hLlast
        rw [List.getLastD_eq_getLast?, List.getLast?_map, hLlast,
          mixGrid_succ hAB hnA]
        rfl
    constructor
    · rw [hfold, hstep, hcells, gridTrail_append, hT, hS, List.append_assoc]
    · rw [hfold, hstep, getLastD_append_eq, hlastS, htraillast]

/-- Master description of the transition planner: the plan from `A` to
`B` walks through exactly the differing cells of `A` and `B`, in
row-major ascending order, fixing one cell per emitted grid. -/
theorem transitionPlan_eq {A B : SwGrid} (hA : wfGrid A) (hB : wfGrid B) :
    transitionPlan A B = gridTrail B A (gridDiffCells A B) := by
  have h := (calc_fold_inv hA hB B.length (le_of_eq hB.1)).1
  rw [transitionPlan, calc_transition_states, h]
  rfl

/-- The last planned state is the desired grid (or, for an empty plan,
the default `A`, which then equals `B`). -/
theorem transitionPlan_getLastD {A B : SwGrid} (hA : wfGrid A)
    (hB : wfGrid B) : (transitionPlan A B).getLastD A = B := by
  have h1 := (calc_fold_inv hA hB B.length (le_of_eq hB.1)).1
  have h2 := (calc_fold_inv hA hB B.length (le_of_eq hB.1)).2
  have hAB : A.length = B.length := by rw [hA.1, hB.1]
  have hmix : mixGrid A B B.length = B := by
    rw [← hAB, mixGrid_all hAB]
  rw [h1] at h2
  have hplan : transitionPlan A B = gridTrail B A (gridDiffCells A B) :=
    transitionPlan_eq hA hB
  rw [hplan]
  rw [hmix, List.singleton_append, List.getLastD_cons] at h2
  exact h2

/-! ## Characterization of the differing-cell list -/

theorem rowDiffIdxs_eq_filter : ∀ {d c : SwRow}, d.length = c.length →
    rowDiffIdxs d c =
      (List.range d.length).filter (fun i => d.getD i false != c.getD i false)
  | [], [], _ => rfl
  | [], _ :: _, h => by simp at h
  | _ :: _, [], h => by simp at h
  | a :: t, b :: s, h => by
    have ih := rowDiffIdxs_eq_filter (d := t) (c := s) (by simpa using h)
    have hrange : List.range (t.length + 1) =
        0 :: (List.range t.length).map (· + 1) := by
      simpa [Nat.succ_eq_add_one] using List.range_succ_eq_map t.length
    have hfilter : ∀ (p : Nat → Bool) (l : List Nat),
        (l.map (· + 1)).filter p = (l.filter (fun i => p (i + 1))).map (· + 1) :=
      fun p l => List.filter_map (· + 1) l
    by_cases hab : a = b
    · subst hab
      simp only [rowDiffIdxs, if_pos rfl, List.length_cons, hrange,
        List.filter_cons, List.getD_cons_zero, bne_self_eq_false,
        Bool.false_eq_true, if_neg, hfilter, List.getD_cons_succ, ih]
      simp
    · have hne : (a != b) = true := by
        cases a <;> cases b <;> simp_all
      simp only [rowDiffIdxs, if_neg hab, List.length_cons, hrange,
        List.filter_cons, List.getD_cons_zero, hne, if_pos, hfilter,
        List.getD_cons_succ, ih]
      try simp

theorem gridDiffCells_length {A B : SwGrid} (hA : wfGrid A) (hB : wfGrid B) :
    (gridDiffCells A B).length = diffCellCount A B := by
  rw [gridDiffCells, gridDiffCellsUpTo, diffCellCount, List.length_flatten,
    List.map_map, hB.1]
  have hA8 := hA.1
  have hB8 := hB.1
  congr 1
  apply List.map_congr_left
  intro ri hri
  rw [List.mem_range] at hri
  have hArow : (A.getD ri []).length = 8 := hA.2 _ (getD_mem (by omega))
  have hBrow : (B.getD ri []).length = 8 := hB.2 _ (getD_mem (by omega))
  have hrow : (B.getD ri []).length = (A.getD ri []).length := by omega
  simp only [Function.comp_apply, List.length_map]
  rw [rowDiffIdxs_eq_filter hrow, hBrow]
  congr 1
  apply List.filter_congr
  intro ci _
  show ((B.getD ri []).getD ci false != (A.getD ri []).getD ci false)
      = (cellOf A ri ci != cellOf B ri ci)
  rw [show cellOf A ri ci = (A.getD ri []).getD ci false from rfl,
    show cellOf B ri ci = (B.getD ri []).getD ci false from rfl]
  generalize (B.getD ri []).getD ci false = x
  generalize (A.getD ri []).getD ci false = y
  cases x <;> cases y <;> rfl

theorem gridDiffCells_mem_of {A B : SwGrid} {rc : Nat × Nat}
    (h : rc ∈ gridDiffCells A B) :
    rc.1 < B.length ∧ rc.2 ∈ rowDiffIdxs (B.getD rc.1 []) (A.getD rc.1 []) := by
  simp only [gridDiffCells, gridDiffCellsUpTo, List.mem_flatten,
    List.mem_map, List.mem_range] at h
  obtain ⟨l, ⟨ri, hri, rfl⟩, hmem⟩ := h
  simp only [List.mem_map] at hmem
  obtain ⟨ci, hci, rfl⟩ := hmem
  exact ⟨hri, hci⟩

theorem gridDiffCells_sorted (A B : SwGrid) :
    (gridDiffCells A B).Pairwise cellLt := by
  rw [gridDiffCells, gridDiffCellsUpTo, List.pairwise_flatten]
  constructor
  · intro l hl
    simp only [List.mem_map, List.mem_range] at hl
    obtain ⟨ri, _, rfl⟩ := hl
    rw [List.pairwise_map]
    exact (rowDiffIdxs_sorted _ _).imp (fun h => Or.inr ⟨rfl, h⟩)
  · rw [List.pairwise_map]
    apply (List.pairwise_lt_range _).imp
    intro ri rj hij
    intro x hx y hy
    simp only [List.mem_map] at hx hy
    obtain ⟨ci, _, rfl⟩ := hx
    obtain ⟨cj, _, rfl⟩ := hy
    exact Or.inl hij

/-! ## The self-plan is empty -/

theorem calc_transition_states_row_self (A : SwGrid) (ts : List SwGrid)
    (ri : Nat) : calc_transition_states_row A A ts ri = ts := by
  rw [calc_transition_states_row]
  have h : get_transitional_rows (A.getD ri []) (A.getD ri []) [A.getD ri []]
      = [A.getD ri []] := by
    rw [get_transitional_rows]
    simp [get_transitional_rows_go]
  rw [h]
  rfl

theorem foldl_calc_row_self (A : SwGrid) : ∀ (l : List Nat) (ts : List SwGrid),
    l.foldl (calc_transition_states_row A A) ts = ts
  | [], _ => rfl
  | ri :: l, ts => by
    rw [List.foldl_cons, calc_transition_states_row_self,
      foldl_calc_row_self A l]

theorem transitionPlan_self (A : SwGrid) : transitionPlan A A = [] := by
  rw [transitionPlan, calc_transition_states, foldl_calc_row_self]
  rfl

/-! ## Single-cell-step chain property of cell trails -/

theorem gridTrail_chain (A B : SwGrid) (cells : List (Nat × Nat)) :
    ∀ (g : SwGrid),
    g.length = 8 → (∀ row ∈ g, row.length = 8) →
    (∀ rc ∈ cells, rc.1 < 8 ∧ rc.2 < 8 ∧
      cellOf g rc.1 rc.2 ≠ cellOf B rc.1 rc.2 ∧
      cellOf A rc.1 rc.2 ≠ cellOf B rc.1 rc.2) →
    cells.Pairwise (· ≠ ·) →
    List.Chain' (fun g1 g2 => oneCellStep g1 g2 ∧
      ∀ r c, cellOf g1 r c ≠ cellOf g2 r c → cellOf A r c ≠ cellOf B r c)
      (g :: gridTrail B g cells) := by
  induction cells with
  | nil =>
    intro g _ _ _ _
    exact List.chain'_singleton g
  | cons rc rest ih =>
    obtain ⟨r, c⟩ := rc
    intro g hglen hgrows hcells hpair
    obtain ⟨hr, hc, hgB, hABrc⟩ := hcells _ (List.mem_cons_self _ _)
    simp only at hr hc hgB hABrc
    have hrowlen : (g.getD r []).length = 8 := hgrows _ (getD_mem (by omega))
    have hcell_set :
        cellOf (g.set r ((g.getD r []).set c ((B.getD r []).getD c false))) r c
          = cellOf B r c := by
      show ((g.set r _).getD r []).getD c false = _
      rw [getD_set_self (by omega), getD_set_self (by omega)]
      rfl
    have hcell_frame : ∀ r' c', r' ≠ r ∨ c' ≠ c →
        cellOf (g.set r ((g.getD r []).set c ((B.getD r []).getD c false))) r' c'
          = cellOf g r' c' := by
      intro r' c' hd
      by_cases h1 : r' = r
      · subst h1
        rcases hd with h1 | h2
        · exact absurd rfl h1
        · show ((g.set r' _).getD r' []).getD c' false = _
          rw [getD_set_self (by omega), getD_set_ne (Ne.symm h2)]
          rfl
      · show ((g.set r _).getD r' []).getD c' false = _
        rw [getD_set_ne (fun he => h1 he.symm)]
        rfl
    have huniq : ∀ r' c',
        cellOf g r' c' ≠
          cellOf (g.set r ((g.getD r []).set c ((B.getD r []).getD c false))) r' c' →
        r' = r ∧ c' = c := by
      intro r' c' hd
      by_cases h1 : r' = r
      · subst h1
        by_cases h2 : c' = c
        · exact ⟨rfl, h2⟩
        · exact absurd (hcell_frame _ _ (Or.inr h2)).symm hd
      · exact absurd (hcell_frame _ _ (Or.inl h1)).symm hd
    simp only [gridTrail]
    rw [List.chain'_cons]
    constructor
    · constructor
      · refine ⟨r, c, ?_, huniq⟩
        rw [hcell_set]
        exact hgB
      · intro r' c' hd
        obtain ⟨rfl, rfl⟩ := huniq _ _ hd
        exact hABrc
    · apply ih
      · simpa using hglen
      · intro row hrow
        rcases List.mem_or_eq_of_mem_set hrow with hmem | rfl
        · exact hgrows _ hmem
        · simpa using hrowlen
      · intro rc' hrc'
        obtain ⟨h1, h2, h3, h4⟩ := hcells _ (List.mem_cons_of_mem _ hrc')
        refine ⟨h1, h2, ?_, h4⟩
        have hne : (⟨r, c⟩ : Nat × Nat) ≠ rc' :=
          (List.pairwise_cons.1 hpair).1 _ hrc'
        have hd : rc'.1 ≠ r ∨ rc'.2 ≠ c := by
          by_cases e1 : rc'.1 = r
          · right
            intro e2
            exact hne (Prod.ext e1.symm e2.symm)
          · left
            exact e1
        rw [hcell_frame _ _ hd]
        exact h3
      · exact (List.pairwise_cons.1 hpair).2

/-! ## Engine lemmas -/

theorem adapt_length (g : SwGrid) :
    (adapt_settings_to_hardware_mapping g).length = g.length := by
  simp [adapt_settings_to_hardware_mapping]

theorem bytearray_length (g : SwGrid) :
    (convert_settings_to_bytearray g).length = g.length :=
  List.length_map g row_to_byte

/-- Every snapshot of a plan between 8 × 8 grids has 8 rows. -/
theorem transitionPlan_mem_length {A B : SwGrid} (hA : wfGrid A)
    (hB : wfGrid B) : ∀ s ∈ transitionPlan A B, s.length = 8 := by
  intro s hs
  rw [transitionPlan_eq hA hB] at hs
  rw [gridTrail_mem_length B _ _ _ hs, hA.1]

/-- Every write emitted by the apply loop goes to shift-register address
3 with one byte per row, and is immediately followed by the settle
sleep — so no second write can occur before the delay elapses. -/
theorem applyStates_write_shape (failIdx : Option Nat) (switch_delay : Rat) :
    ∀ (states : List SwGrid) (idx i a : Nat) (data : List Nat),
    (∀ s ∈ states, s.length = 8) →
    ((applyStates failIdx switch_delay idx states).1)[i]? =
      some (Ev.write a data) →
    a = 3 ∧ data.length = 8 ∧
      ((applyStates failIdx switch_delay idx states).1)[i + 1]? =
        some (Ev.sleep switch_delay)
  | [], idx, i, a, data, _, hget => by simp [applyStates] at hget
  | s :: rest, idx, i, a, data, hlen, hget => by
    by_cases hf : failIdx = some idx
    · rw [applyStates, if_pos hf] at hget
      simp at hget
    · rw [applyStates, if_neg hf] at hget ⊢
      match i, hget with
      | 0, hget =>
        simp only [pass_state_evs, List.cons_append, List.getElem?_cons_zero,
          Option.some.injEq, Ev.write.injEq] at hget
        obtain ⟨rfl, rfl⟩ := hget
        refine ⟨rfl, ?_, by simp [pass_state_evs]⟩
        rw [bytearray_length, adapt_length]
        exact hlen _ (List.mem_cons_self _ _)
      | 1, hget =>
        simp [pass_state_evs] at hget
      | (i + 2), hget =>
        have hg : ((applyStates failIdx switch_delay (idx + 1) rest).1)[i]? =
            some (Ev.write a data) := by
          simpa [pass_state_evs] using hget
        obtain ⟨h1, h2, h3⟩ := applyStates_write_shape failIdx switch_delay
          rest (idx + 1) i a data (fun t ht => hlen t (List.mem_cons_of_mem _ ht)) hg
        refine ⟨h1, h2, ?_⟩
        simpa [pass_state_evs] using h3

theorem update_state_trace (f : Option Nat) (d : Rat) (st : U1cState)
    (des : SwGrid) :
    (update_state f d st des).trace =
      (applyStates f d 0 (transitionPlan st.settings_current des)).1 := by
  rw [update_state]
  by_cases h : (applyStates f d 0 (transitionPlan st.settings_current des)).2 <;>
    simp [h]

/-! ## Prefix preservation by the planner -/

theorem get_transitional_rows_go_app : ∀ (fuel : Nat) (d c : SwRow)
    (acc : List SwRow),
    ∃ t, get_transitional_rows_go fuel d c acc = acc ++ t
  | 0, _, _, acc => ⟨[], by simp [get_transitional_rows_go]⟩
  | fuel + 1, d, c, acc => by
    by_cases hdc : d = c
    · exact ⟨[], by simp [get_transitional_rows_go, hdc]⟩
    · cases hfd : firstDiff d c with
      | none => exact ⟨[], by simp [get_transitional_rows_go, hdc, hfd]⟩
      | some i =>
        obtain ⟨t, ht⟩ := get_transitional_rows_go_app fuel d
          ((acc.getLastD []).set i (d.getD i false))
          (acc ++ [(acc.getLastD []).set i (d.getD i false)])
        refine ⟨[(acc.getLastD []).set i (d.getD i false)] ++ t, ?_⟩
        have hunfold : get_transitional_rows_go (fuel + 1) d c acc =
            get_transitional_rows_go fuel d
              ((acc.getLastD []).set i (d.getD i false))
              (acc ++ [(acc.getLastD []).set i (d.getD i false)]) := by
          simp only [get_transitional_rows_go, if_neg hdc, hfd]
        rw [hunfold, ht, List.append_assoc]

theorem foldl_calc_row_app (cur des : SwGrid) : ∀ (l : List Nat)
    (ts : List SwGrid),
    ∃ t, l.foldl (calc_transition_states_row cur des) ts = ts ++ t
  | [], ts => ⟨[], by simp⟩
  | ri :: l, ts => by
    obtain ⟨t2, ht2⟩ := foldl_calc_row_app cur des l
      (ts ++ (((get_transitional_rows (des.getD ri []) (cur.getD ri [])
        [cur.getD ri []]).drop 1).map (fun r => (ts.getLastD []).set ri r)))
    refine ⟨(((get_transitional_rows (des.getD ri []) (cur.getD ri [])
        [cur.getD ri []]).drop 1).map (fun r => (ts.getLastD []).set ri r))
          ++ t2, ?_⟩
    rw [List.foldl_cons, calc_transition_states_row, get_interim_states_eq,
      ht2, List.append_assoc]

/-! ## The claims -/

/-- C1: for every pair of fully populated 8×8 grids (current, desired),
every adjacent pair of states in `[current] ++ plan(current, desired)`
(the sequence produced by `calc_transition_states` seeded with
`settings_current`, as in `update_state`) differs in exactly one cell —
no emitted state changes two or more cells at once — and every cell that
changes belongs to the net difference between `current` and `desired`
(no redundant toggling). -/
theorem C1_plan_steps_single_cell (A B : SwGrid) (hA : wfGrid A)
    (hB : wfGrid B) :
    List.Chain' (fun g1 g2 => oneCellStep g1 g2 ∧
      ∀ r c, cellOf g1 r c ≠ cellOf g2 r c → cellOf A r c ≠ cellOf B r c)
      (A :: transitionPlan A B) := by
  rw [transitionPlan_eq hA hB]
  have hB8 := hB.1
  apply gridTrail_chain A B (gridDiffCells A B) A hA.1 hA.2
  · intro rc hrc
    obtain ⟨h1, h2⟩ := gridDiffCells_mem_of hrc
    obtain ⟨hb1, hb2, hb3⟩ := rowDiffIdxs_mem h2
    have hBrow : (B.getD rc.1 []).length = 8 := hB.2 _ (getD_mem (by omega))
    refine ⟨by omega, by omega, ?_, ?_⟩
    · exact fun he => hb3 he.symm
    · exact fun he => hb3 he.symm
  · refine (gridDiffCells_sorted A B).imp ?_
    intro a b h heq
    subst heq
    rcases h with h | ⟨_, h⟩ <;> omega

/-- Witness for C1 at the concrete pair
(`settings_default`, `demoGridB`). -/
theorem C1_witness :
    wfGrid settings_default ∧ wfGrid demoGridB ∧
    List.Chain' (fun g1 g2 => oneCellStep g1 g2 ∧
      ∀ r c, cellOf g1 r c ≠ cellOf g2 r c →
        cellOf settings_default r c ≠ cellOf demoGridB r c)
      (settings_default :: transitionPlan settings_default demoGridB) :=
  ⟨by decide, by decide,
    C1_plan_steps_single_cell settings_default demoGridB (by decide) (by decide)⟩

/-- C3: for fully populated 8×8 grids, replaying the plan from `A`
reaches exactly `B` (the last planned state is `B`), the plan length is
`popcount(A XOR B)` (the number of differing cells, one step per
differing cell), and the plan equals the single-cell-fix walk through
the differing cells taken in row-major ascending order (rows resolved in
ascending row order, cells in ascending column order within a row), that
order being strictly increasing. -/
theorem C3_plan_replays_net_difference (A B : SwGrid) (hA : wfGrid A)
    (hB : wfGrid B) :
    (transitionPlan A B).getLastD A = B ∧
    (transitionPlan A B).length = diffCellCount A B ∧
    transitionPlan A B = gridTrail B A (gridDiffCells A B) ∧
    (gridDiffCells A B).Pairwise cellLt := by
  refine ⟨transitionPlan_getLastD hA hB, ?_, transitionPlan_eq hA hB,
    gridDiffCells_sorted A B⟩
  rw [transitionPlan_eq hA hB, gridTrail_length, gridDiffCells_length hA hB]

/-- Witness for C3 at the concrete pair
(`settings_default`, `demoGridB`). -/
theorem C3_witness :
    wfGrid settings_default ∧ wfGrid demoGridB ∧
    ((transitionPlan settings_default demoGridB).getLastD settings_default
        = demoGridB ∧
      (transitionPlan settings_default demoGridB).length =
        diffCellCount settings_default demoGridB ∧
      transitionPlan settings_default demoGridB =
        gridTrail demoGridB settings_default
          (gridDiffCells settings_default demoGridB) ∧
      (gridDiffCells settings_default demoGridB).Pairwise cellLt) :=
  ⟨by decide, by decide,
    C3_plan_replays_net_difference settings_default demoGridB
      (by decide) (by decide)⟩

/-- C9: the plan from any grid to itself is empty (no well-formedness
needed), and a reconfiguration whose desired grid equals the current
grid emits no event at all — in particular no shift-register write —
and completes normally. -/
theorem C9_self_plan_empty_no_write :
    (∀ A : SwGrid, transitionPlan A A = []) ∧
    ∀ (failIdx : Option Nat) (switch_delay : Rat) (st : U1cState),
      (update_state failIdx switch_delay st st.settings_current).trace = [] ∧
      (update_state failIdx switch_delay st st.settings_current).ok = true := by
  refine ⟨transitionPlan_self, ?_⟩
  intro f d st
  constructor
  · rw [update_state_trace, transitionPlan_self]
    rfl
  · rw [update_state, transitionPlan_self]
    rfl

/-- C10: the planning helpers only ever append to their accumulators:
`get_interim_states_from_interim_rows`, `get_transitional_rows` and
`calc_transition_states` each return their input accumulator extended by
new snapshots, so no previously emitted snapshot (and no seed, in
particular not the grid aliasing `settings_current`) is ever modified;
`adapt_settings_to_hardware_mapping` is a pure function of its argument
in this embedding (the source builds its result in a `deepcopy`). -/
theorem C10_planner_only_appends :
    (∀ (row_num : Nat) (interim_rows : List SwRow)
        (interim_states : List SwGrid),
      ∃ t, get_interim_states_from_interim_rows row_num interim_rows
        interim_states = interim_states ++ t) ∧
    (∀ (d c : SwRow) (acc : List SwRow),
      ∃ t, get_transitional_rows d c acc = acc ++ t) ∧
    (∀ (cur des : SwGrid) (ts : List SwGrid),
      ∃ t, calc_transition_states cur des ts = ts ++ t) := by
  refine ⟨?_, ?_, ?_⟩
  · intro row_num interim_rows interim_states
    exact ⟨_, get_interim_states_eq interim_rows row_num interim_states⟩
  · intro d c acc
    exact get_transitional_rows_go_app _ d c acc
  · intro cur des ts
    exact foldl_calc_row_app cur des _ ts

/-- C2: in every trace of `update_state`, each transport write carries
the serialized form of an adapted snapshot — it goes to the
shift-register address 3 with exactly 8 bytes (one per row) — and is
immediately followed by the blocking settle sleep of the configured
`switch_delay`; since the trace holds only writes and sleeps, no two
shift-register writes ever occur without an intervening settle delay,
whether the run completes or a transport failure cuts it short. -/
theorem C2_write_then_settle (failIdx : Option Nat) (switch_delay : Rat)
    (st : U1cState) (settings_desired : SwGrid)
    (hA : wfGrid st.settings_current) (hB : wfGrid settings_desired) :
    ∀ (i a : Nat) (data : List Nat),
    ((update_state failIdx switch_delay st settings_desired).trace)[i]? =
      some (Ev.write a data) →
    a = 3 ∧ data.length = 8 ∧
      ((update_state failIdx switch_delay st settings_desired).trace)[i + 1]?
        = some (Ev.sleep switch_delay) := by
  intro i a data hget
  rw [update_state_trace] at hget ⊢
  exact applyStates_write_shape failIdx switch_delay _ 0 i a data
    (transitionPlan_mem_length hA hB) hget

/-- Witness for C2: the first write of a concrete two-step
reconfiguration. -/
theorem C2_witness :
    wfGrid settings_default ∧ wfGrid demoGridB ∧
    ((update_state none 1 demoState0 demoGridB).trace)[0]? =
      some (Ev.write 3 [0, 1, 0, 0, 0, 0, 0, 0]) ∧
    (3 = 3 ∧ ([0, 1, 0, 0, 0, 0, 0, 0] : List Nat).length = 8 ∧
      ((update_state none 1 demoState0 demoGridB).trace)[0 + 1]? =
        some (Ev.sleep 1)) :=
  ⟨by decide, by decide, by decide,
    C2_write_then_settle none 1 demoState0 demoGridB
      (by decide) (by decide) 0 3 [0, 1, 0, 0, 0, 0, 0, 0] (by decide)⟩

/-- C5: `settings_current` is never partially updated: a completed
`update_state` leaves it equal to the whole desired grid, and a run cut
short by a transport failure leaves it at its pre-call value — nothing
in between. -/
theorem C5_no_partial_update (failIdx : Option Nat) (switch_delay : Rat)
    (st : U1cState) (settings_desired : SwGrid) :
    (update_state failIdx switch_delay st settings_desired).state.settings_current =
      if (update_state failIdx switch_delay st settings_desired).ok = true
      then settings_desired else st.settings_current := by
  rw [update_state]
  by_cases h : (applyStates failIdx switch_delay 0
    (transitionPlan st.settings_current settings_desired)).2 <;> simp [h]

/-- C4 (amended): when a transport write raises at any step, the whole
pre-call module state is retained — `settings_current` stays at its
value before the call (not at the last successfully written snapshot)
and `initialized` is unchanged — and the failure is surfaced
synchronously as the abnormal result. -/
theorem C4_failure_retains_precall_state (failIdx : Option Nat)
    (switch_delay : Rat) (st : U1cState) (settings_desired : SwGrid)
    (h : (update_state failIdx switch_delay st settings_desired).ok = false) :
    (update_state failIdx switch_delay st settings_desired).state = st := by
  rw [update_state] at h ⊢
  by_cases h2 : (applyStates failIdx switch_delay 0
    (transitionPlan st.settings_current settings_desired)).2
  · rw [if_pos h2] at h
    simp at h
  · rw [if_neg h2]

/-- Counterexample to C4 as stated: with the second write of a two-step
apply raising, `settings_current` equals neither the last successfully
written snapshot (step 0) nor the failed step's snapshot (step 1) — it
is left at the pre-call grid. -/
theorem C4_counterexample :
    (update_state (some 1) 1 demoState0 demoGridB).ok = false ∧
    (update_state (some 1) 1 demoState0 demoGridB).state.settings_current ≠
      (transitionPlan settings_default demoGridB).getD 0 [] ∧
    (update_state (some 1) 1 demoState0 demoGridB).state.settings_current ≠
      (transitionPlan settings_default demoGridB).getD 1 [] := by decide

/-- Witness for the amended C4 at the concrete failing run. -/
theorem C4_witness :
    (update_state (some 1) 1 demoState0 demoGridB).ok = false ∧
    (update_state (some 1) 1 demoState0 demoGridB).state = demoState0 :=
  ⟨by decide, C4_failure_retains_precall_state (some 1) 1 demoState0
    demoGridB (by decide)⟩

/-- C6 (amended): when `update_state` completes successfully,
`settings_current` is set to the desired grid extracted from the
configuration source, while `initialized` is deliberately left unchanged
(the source comments out the assignment, U1c_module.py:506). -/
theorem C6_success_sets_grid_keeps_flag (failIdx : Option Nat)
    (switch_delay : Rat) (st : U1cState) (settings_desired : SwGrid)
    (h : (update_state failIdx switch_delay st settings_desired).ok = true) :
    (update_state failIdx switch_delay st settings_desired).state.settings_current
        = settings_desired ∧
    (update_state failIdx switch_delay st settings_desired).state.initialized
        = st.initialized := by
  rw [update_state] at h ⊢
  by_cases h2 : (applyStates failIdx switch_delay 0
    (transitionPlan st.settings_current settings_desired)).2
  · rw [if_pos h2]
    exact ⟨rfl, rfl⟩
  · rw [if_neg h2] at h
    simp at h

/-- Counterexample to C6 as stated: a successful `update_state` from an
uninitialized module leaves `initialized` at 0; it is not set true. -/
theorem C6_counterexample :
    (update_state none 1 demoState0 demoGridB).ok = true ∧
    (update_state none 1 demoState0 demoGridB).state.initialized ≠ 1 := by
  decide

/-- Witness for the amended C6 at a concrete successful run. -/
theorem C6_witness :
    (update_state none 1 demoState0 demoGridB).ok = true ∧
    ((update_state none 1 demoState0 demoGridB).state.settings_current
        = demoGridB ∧
      (update_state none 1 demoState0 demoGridB).state.initialized
        = demoState0.initialized) :=
  ⟨by decide, C6_success_sets_grid_keeps_flag none 1 demoState0 demoGridB
    (by decide)⟩

theorem grid_eight {g : SwGrid} (h : g.length = 8) :
    ∃ r0 r1 r2 r3 r4 r5 r6 r7, g = [r0, r1, r2, r3, r4, r5, r6, r7] := by
  cases g with
  | nil => simp at h
  | cons r0 g =>
  cases g with
  | nil => simp at h
  | cons r1 g =>
  cases g with
  | nil => simp at h
  | cons r2 g =>
  cases g with
  | nil => simp at h
  | cons r3 g =>
  cases g with
  | nil => simp at h
  | cons r4 g =>
  cases g with
  | nil => simp at h
  | cons r5 g =>
  cases g with
  | nil => simp at h
  | cons r6 g =>
  cases g with
  | nil => simp at h
  | cons r7 g =>
  cases g with
  | nil => exact ⟨r0, r1, r2, r3, r4, r5, r6, r7, rfl⟩
  | cons r8 g => simp at h

/-- C7: whenever `disconnect_all` runs with the validity flag unset (as
at construction with `initialize` requested, or after a software restart
without hardware reset), the run is entirely independent of the stale
`settings_current` — the planner's baseline is the all-open grid — the
all-zero grid is unconditionally written once to the shift register,
the engine settles, the output-enable line is asserted (byte 0 at
address 5 — OE is inverted), and on completion the validity flag is 1
with `settings_current` the all-open grid. -/
theorem C7_bring_up_from_unknown_state (switch_delay : Rat) (st : U1cState)
    (h : st.initialized ≠ 1) :
    disconnect_all none switch_delay st =
      { state := { settings_current := settings_default, initialized := 1 },
        trace := [Ev.write 3 [0, 0, 0, 0, 0, 0, 0, 0],
          Ev.sleep switch_delay, Ev.write 5 [0]],
        ok := true } := by
  have hts : calc_transition_states settings_default settings_default
      [settings_default] = [settings_default] := by
    rw [calc_transition_states, foldl_calc_row_self]
  have hbytes : convert_settings_to_bytearray
      (adapt_settings_to_hardware_mapping settings_default) =
      [0, 0, 0, 0, 0, 0, 0, 0] := by decide
  have hc2 : ¬(st.initialized = 1 ∧
      ([settings_default] : List SwGrid).headD [] = settings_default) :=
    fun hc => h hc.1
  rw [disconnect_all, if_pos h, hts, if_neg hc2]
  simp [applyStates, pass_state_evs, hbytes, enable_SR_output_evs]

/-- Witness for C7: bring-up from a freshly constructed module whose
stale grid claims everything is connected. -/
theorem C7_witness :
    demoStaleState.initialized ≠ 1 ∧
    disconnect_all none 1 demoStaleState =
      { state := { settings_current := settings_default, initialized := 1 },
        trace := [Ev.write 3 [0, 0, 0, 0, 0, 0, 0, 0],
          Ev.sleep 1, Ev.write 5 [0]],
        ok := true } :=
  ⟨by decide, C7_bring_up_from_unknown_state 1 demoStaleState (by decide)⟩

/-- C8 (amended): for every 8-row grid, the hardware adapter maps each
row pair (0,1), (2,3), (4,5), (6,7) so that the **first** row of the
pair, bit-reversed, becomes the physical successor row, and the second
row of the pair becomes the physical predecessor row unchanged (the
source reverses `settings_initial[2k]`, not `settings_initial[2k+1]`);
the argument itself is not touched (the source writes only into a
`deepcopy`, and this embedding is a pure function). -/
theorem C8_hardware_mapping (g : SwGrid) (h : g.length = 8) :
    adapt_settings_to_hardware_mapping g =
      [g.getD 1 [], (g.getD 0 []).reverse,
       g.getD 3 [], (g.getD 2 []).reverse,
       g.getD 5 [], (g.getD 4 []).reverse,
       g.getD 7 [], (g.getD 6 []).reverse] := by
  obtain ⟨r0, r1, r2, r3, r4, r5, r6, r7, rfl⟩ := grid_eight h
  rfl

/-- Counterexample to C8 as stated: the physical successor row is not
the first row of the pair unreversed, and the physical predecessor row
is not the bit-reversed second row. -/
theorem C8_counterexample :
    (adapt_settings_to_hardware_mapping demoGridC).getD 1 [] ≠
      demoGridC.getD 0 [] ∧
    (adapt_settings_to_hardware_mapping demoGridC).getD 0 [] ≠
      (demoGridC.getD 1 []).reverse := by decide

/-- Witness for the amended C8 at the concrete grid `demoGridC`. -/
theorem C8_witness :
    demoGridC.length = 8 ∧
    adapt_settings_to_hardware_mapping demoGridC =
      [demoGridC.getD 1 [], (demoGridC.getD 0 []).reverse,
       demoGridC.getD 3 [], (demoGridC.getD 2 []).reverse,
       demoGridC.getD 5 [], (demoGridC.getD 4 []).reverse,
       demoGridC.getD 7 [], (demoGridC.getD 6 []).reverse] :=
  ⟨by decide, C8_hardware_mapping demoGridC (by decide)⟩

-- Sanity examples for the row-level planner (removable scratch checks).
example : firstDiff [true, false] [true, true] = some 1 := by decide
example :
    get_transitional_rows [false, false, true, true] [false, false, false, false]
      [[false, false, false, false]] =
    [[false, false, false, false], [false, false, true, false],
     [false, false, true, true]] := by decide
example :
    get_interim_states_from_interim_rows 1 [[true, false]]
      [[[false, false], [false, false]]] =
    [[[false, false], [false, false]], [[false, false], [true, false]]] := by
  decide
example : row_to_byte [true, false, false, false, false, false, false, true] = 129 := by decide
